import Mathlib

/-!
Verification of the roadmap graph engine: data model (`LearningNode`),
node store (`add_node` / `get_node_by_id` / `get_all_nodes` /
`load_default_roadmap`) and the roadmap service queries
(`get_roadmap_overview`, `get_learning_path`, `get_prerequisites`,
`get_next_recommended_topics`, `calculate_remaining_hours`).

The store is a Python dict keyed by node id; we embed it as the list of its
values in insertion order.  Inserting an existing key overwrites in place,
inserting a fresh key appends.  A genuine dict never holds two entries with
the same key, so theorems that need it assume the stored ids are distinct.

The recursive depth-first traversal of `get_learning_path` is embedded with
a fuel parameter; `repo.length + 1` units of fuel are enough because each
recursive level that passes the guards marks one store node visited before
descending.
-/

inductive NodeType where
  | START : NodeType
  | TOPIC : NodeType
  | END : NodeType
deriving DecidableEq

structure LearningNode where
  id : String
  title : String
  description : String
  node_type : NodeType
  subtopics : List String
  prerequisites : List String
  estimated_hours : Int
  resources : List String
deriving DecidableEq

/-- `LearningNode.__post_init__`: construction rejects an empty id and then an
empty title, otherwise yields the record with the given fields.  The Python
`ValueError` is embedded as `Except.error` with the source's message. -/
def mkLearningNode (id title description : String) (node_type : NodeType)
    (subtopics prerequisites : List String) (estimated_hours : Int)
    (resources : List String) : Except String LearningNode :=
  if id = "" then Except.error "Node ID cannot be empty"
  else if title = "" then Except.error "Node title cannot be empty"
  else Except.ok ⟨id, title, description, node_type, subtopics, prerequisites,
    estimated_hours, resources⟩

/-- `RoadmapRepository.add_node`: dict assignment `self._nodes[node.id] = node`.
If the key is present the entry is overwritten in place, otherwise the new
entry is appended at the end of the iteration order. -/
def add_node (repo : List LearningNode) (node : LearningNode) : List LearningNode :=
  if repo.any (fun n => n.id == node.id) then
    repo.map (fun n => if n.id == node.id then node else n)
  else
    repo ++ [node]

/-- `RoadmapRepository.get_node_by_id`: `self._nodes.get(node_id)`. -/
def get_node_by_id (repo : List LearningNode) (node_id : String) : Option LearningNode :=
  repo.find? (fun n => n.id == node_id)

/-- `RoadmapRepository.get_all_nodes`: `list(self._nodes.values())`. -/
def get_all_nodes (repo : List LearningNode) : List LearningNode :=
  repo

/-- Overview record returned by `RoadmapService.get_roadmap_overview`. -/
structure RoadmapOverview where
  total_nodes : Nat
  estimated_total_hours : Int
deriving DecidableEq

/-- `RoadmapService.get_roadmap_overview`: counts all nodes and sums their
`estimated_hours` with Python's `sum`, a left fold from 0. -/
def get_roadmap_overview (repo : List LearningNode) : RoadmapOverview :=
  { total_nodes := (get_all_nodes repo).length
    estimated_total_hours :=
      (get_all_nodes repo).foldl (fun acc n => acc + n.estimated_hours) 0 }

/-- The inner recursion `build_path` of `RoadmapService.get_learning_path`.
State is the pair (visited ids, output path).  A node id already visited, or
absent from the store, leaves the state unchanged; otherwise the id is marked
visited, the prerequisites are traversed left to right, and the node is
appended after them.  The fuel argument only makes the recursion structural;
callers supply enough fuel for it never to run out: every level that passes
the guards moves one stored id from unvisited to visited before recursing, so
the recursion depth is bounded by the store size. -/
def build_path (repo : List LearningNode) :
    Nat → String → List String × List LearningNode → List String × List LearningNode
  | 0, _, st => st
  | fuel + 1, node_id, st =>
    if node_id ∈ st.1 then st
    else
      match get_node_by_id repo node_id with
      | none => st
      | some node =>
        let st' := node.prerequisites.foldl
          (fun s q => build_path repo fuel q s) (node_id :: st.1, st.2)
        (st'.1, st'.2 ++ [node])

/-- `RoadmapService.get_learning_path`: empty for an unknown target, otherwise
the path accumulated by `build_path` from empty state. -/
def get_learning_path (repo : List LearningNode) (target_node_id : String) :
    List LearningNode :=
  match get_node_by_id repo target_node_id with
  | none => []
  | some _ => (build_path repo (repo.length + 1) target_node_id ([], [])).2

/-- `RoadmapService.get_prerequisites`: resolves each listed prerequisite id,
keeping the ones found in the store, in listed order. -/
def get_prerequisites (repo : List LearningNode) (node_id : String) :
    List LearningNode :=
  match get_node_by_id repo node_id with
  | none => []
  | some node => node.prerequisites.filterMap (fun q => get_node_by_id repo q)

/-- `RoadmapService.get_next_recommended_topics`: keeps the stored nodes that
are not completed, are neither START nor END, and whose prerequisites are all
completed. -/
def get_next_recommended_topics (repo : List LearningNode)
    (completed_topics : List String) : List LearningNode :=
  (get_all_nodes repo).filter (fun node =>
    !(completed_topics.contains node.id) &&
    !([NodeType.START, NodeType.END].contains node.node_type) &&
    node.prerequisites.all (fun q => completed_topics.contains q))

/-- `RoadmapService.calculate_remaining_hours`: sums `estimated_hours` over the
stored nodes whose id is not completed. -/
def calculate_remaining_hours (repo : List LearningNode)
    (completed_topics : List String) : Int :=
  ((get_all_nodes repo).filter (fun node => !(completed_topics.contains node.id))).foldl
    (fun acc n => acc + n.estimated_hours) 0

/-- The fixed start node of `load_default_roadmap`. -/
def start_node : LearningNode :=
  ⟨"start", "Start", "Beginning of the AI Engineering journey", NodeType.START,
    [], [], 0, []⟩

/-- The fixed LLM APIs node of `load_default_roadmap`. -/
def llm_apis_node : LearningNode :=
  ⟨"llm-apis", "LLM APIs", "Understanding different types of LLMs and their APIs",
    NodeType.TOPIC,
    ["Types of LLMs", "Structured Outputs", "Prompt Caching", "Multi-modal models"],
    ["start"], 20,
    ["https://platform.openai.com/docs", "https://docs.anthropic.com/claude/docs"]⟩

/-- The fixed model adaptation node of `load_default_roadmap`. -/
def model_adaptation_node : LearningNode :=
  ⟨"model-adaptation", "Model Adaptation",
    "Techniques for adapting models to specific use cases", NodeType.TOPIC,
    ["Prompt Engineering", "Tool Use", "Finetuning"],
    ["llm-apis"], 30,
    ["https://arxiv.org/abs/2005.14165",
     "https://huggingface.co/docs/transformers/training"]⟩

/-- The fixed storage node of `load_default_roadmap`. -/
def storage_node : LearningNode :=
  ⟨"storage-retrieval", "Storage for Retrieval",
    "Database solutions for AI applications", NodeType.TOPIC,
    ["Vector Databases", "Graph Databases", "Hybrid retrieval"],
    ["llm-apis"], 25,
    ["https://weaviate.io/developers/weaviate", "https://neo4j.com/docs/"]⟩

/-- The fixed infrastructure node of `load_default_roadmap`. -/
def infrastructure_node : LearningNode :=
  ⟨"infrastructure", "Infrastructure",
    "Deployment and scaling of AI applications", NodeType.TOPIC,
    ["Kubernetes", "Cloud Services", "CI/CD", "Model Routing", "LLM deployment"],
    ["model-adaptation", "storage-retrieval"], 40,
    ["https://kubernetes.io/docs/", "https://aws.amazon.com/sagemaker/"]⟩

/-- The fixed AI agents node of `load_default_roadmap`. -/
def ai_agents_node : LearningNode :=
  ⟨"ai-agents", "AI Agents", "Building intelligent autonomous agents",
    NodeType.TOPIC,
    ["AI Agent Design Patterns", "Multi-agent systems", "Memory + Tools",
     "Planning", "Finetuning", "ABL, AL, etc."],
    ["model-adaptation", "storage-retrieval"], 50,
    ["https://github.com/microsoft/autogen", "https://langchain.com/"]⟩

/-- The fixed RAG node of `load_default_roadmap`. -/
def rag_node : LearningNode :=
  ⟨"rag-agentic", "RAG & Agentic RAG",
    "Retrieval-Augmented Generation and agentic approaches", NodeType.TOPIC,
    ["Data retrieval and generation", "Vector + Graph", "MCP",
     "LLM Orchestration Frameworks"],
    ["ai-agents", "storage-retrieval"], 35,
    ["https://arxiv.org/abs/2005.11401",
     "https://github.com/langchain-ai/langchain"]⟩

/-- The fixed observability node of `load_default_roadmap`. -/
def observability_node : LearningNode :=
  ⟨"observability-evaluation", "Observability & Evaluation",
    "Monitoring and evaluating AI systems", NodeType.TOPIC,
    ["AI Agent instrumentation", "Observability platforms",
     "Evaluation techniques", "AI Agent Evaluation"],
    ["ai-agents", "rag-agentic"], 30,
    ["https://weights-and-biases.github.io/", "https://docs.wandb.ai/"]⟩

/-- The fixed security node of `load_default_roadmap`. -/
def security_node : LearningNode :=
  ⟨"security", "Security", "Security considerations for AI applications",
    NodeType.TOPIC,
    ["Guardrails", "Testing LLM-based applications", "Secure orchestration"],
    ["infrastructure", "observability-evaluation"], 25,
    ["https://owasp.org/www-project-ai-security-and-privacy-guide/"]⟩

/-- The fixed forward looking node of `load_default_roadmap`. -/
def forward_looking_node : LearningNode :=
  ⟨"forward-looking", "Forward looking elements",
    "Emerging trends and future technologies", NodeType.TOPIC,
    ["Voice and Vision Agents", "Auto Agents", "Automated Prompt Engineering"],
    ["security", "observability-evaluation"], 20,
    ["https://arxiv.org/abs/2310.12397"]⟩

/-- The fixed end node of `load_default_roadmap`. -/
def end_node : LearningNode :=
  ⟨"ai-engineer", "AI Engineer",
    "Congratulations! You\x27ve completed the AI Engineering roadmap",
    NodeType.END, [], ["forward-looking"], 0, []⟩

/-- `RoadmapRepository.load_default_roadmap`: eleven `add_node` calls in source
order. -/
def load_default_roadmap (repo : List LearningNode) : List LearningNode :=
  add_node (add_node (add_node (add_node (add_node (add_node (add_node
    (add_node (add_node (add_node (add_node repo
      start_node) llm_apis_node) model_adaptation_node) storage_node)
      infrastructure_node) ai_agents_node) rag_node) observability_node)
      security_node) forward_looking_node) end_node

/-- The default roadmap loaded into an empty store. -/
def default_repo : List LearningNode :=
  load_default_roadmap []

/-! ### Basic helper lemmas -/

lemma contains_true_iff (l : List String) (a : String) : l.contains a = true ↔ a ∈ l :=
  List.elem_iff

lemma get_node_by_id_id_eq {repo : List LearningNode} {q : String} {m : LearningNode}
    (h : get_node_by_id repo q = some m) : m.id = q := by
  have := List.find?_some h
  simpa using this

lemma get_node_by_id_mem {repo : List LearningNode} {q : String} {m : LearningNode}
    (h : get_node_by_id repo q = some m) : m ∈ repo :=
  List.mem_of_find?_eq_some h

lemma hours_foldl_eq_sum (l : List LearningNode) :
    l.foldl (fun acc n => acc + n.estimated_hours) 0 =
      (l.map (fun n => n.estimated_hours)).sum := by
  rw [List.sum_eq_foldl, List.foldl_map]

/-! ### C4: overview counts every node and sums every node's hours -/

/-- C4: `get_overview()` returns `total_nodes` equal to the number of stored
nodes (every node, START and END included) and `estimated_total_hours` equal
to the sum of `estimated_hours` over all stored nodes, with no filtering by
kind. -/
theorem get_roadmap_overview_spec (repo : List LearningNode) :
    (get_roadmap_overview repo).total_nodes = (get_all_nodes repo).length ∧
    (get_roadmap_overview repo).estimated_total_hours =
      ((get_all_nodes repo).map (fun n => n.estimated_hours)).sum := by
  exact ⟨rfl, hours_foldl_eq_sum _⟩

/-! ### C5: unknown target gives the empty path -/

/-- C5: for a `target_id` not present in the store, `get_learning_path`
returns the empty sequence (and, being a total function, raises nothing). -/
theorem get_learning_path_unknown (repo : List LearningNode) (target : String)
    (h : get_node_by_id repo target = none) :
    get_learning_path repo target = [] := by
  simp [get_learning_path, h]

theorem get_learning_path_unknown_witness :
    get_node_by_id default_repo "unknown-id" = none ∧
    get_learning_path default_repo "unknown-id" = [] :=
  ⟨by decide, get_learning_path_unknown default_repo "unknown-id" (by decide)⟩

/-! ### C6: node construction fails exactly on empty id or empty title -/

/-- C6: Topic Node construction fails if and only if the id is empty or the
title is empty, and with non-empty id and title it succeeds with exactly the
given field values, whatever the other fields are. -/
theorem mkLearningNode_spec (i t d : String) (k : NodeType) (sub pre : List String)
    (hours : Int) (res : List String) :
    ((mkLearningNode i t d k sub pre hours res).isOk = true ↔ ¬i = "" ∧ ¬t = "") ∧
    ((∃ msg, mkLearningNode i t d k sub pre hours res = Except.error msg) ↔
      (i = "" ∨ t = "")) ∧
    (¬i = "" → ¬t = "" →
      mkLearningNode i t d k sub pre hours res =
        Except.ok ⟨i, t, d, k, sub, pre, hours, res⟩) := by
  by_cases hi : i = "" <;> by_cases ht : t = "" <;>
    simp [mkLearningNode, hi, ht, Except.isOk, Except.toBool]

/-! ### C7: the default roadmap fixture -/

/-- C7: after `load_default()` on an empty store the overview reports 11 nodes
with exactly the canonical ids, and 275 total estimated hours. -/
theorem load_default_roadmap_spec :
    (load_default_roadmap []).map (fun n => n.id) =
      ["start", "llm-apis", "model-adaptation", "storage-retrieval",
       "infrastructure", "ai-agents", "rag-agentic", "observability-evaluation",
       "security", "forward-looking", "ai-engineer"] ∧
    (get_roadmap_overview (load_default_roadmap [])).total_nodes = 11 ∧
    (get_roadmap_overview (load_default_roadmap [])).estimated_total_hours = 275 := by
  decide

/-! ### C9: adding a node with an existing id overwrites it -/

lemma find?_map_overwrite (repo : List LearningNode) (node : LearningNode)
    (h : ∃ m ∈ repo, m.id = node.id) :
    (repo.map (fun n => if n.id == node.id then node else n)).find?
      (fun n => n.id == node.id) = some node := by
  induction repo with
  | nil => simp at h
  | cons m rest ih =>
    simp only [List.map_cons]
    by_cases hm : m.id = node.id
    · rw [if_pos (by simpa using hm)]
      rw [List.find?_cons_of_pos _ (by simp)]
    · rw [if_neg (by simpa using hm)]
      rw [List.find?_cons_of_neg _ (by simpa using hm)]
      apply ih
      rcases h with ⟨m', hm', hid⟩
      rcases List.mem_cons.mp hm' with rfl | hrest
      · exact absurd hid hm
      · exact ⟨m', hrest, hid⟩

/-- C9: for a store already holding a node with id `X`, `add(node)` with
`node.id = X` succeeds, replaces the stored node (lookup now yields the new
node) and leaves the number of stored nodes unchanged. -/
theorem add_node_existing_spec (repo : List LearningNode) (node old : LearningNode)
    (h : get_node_by_id repo node.id = some old) :
    get_node_by_id (add_node repo node) node.id = some node ∧
    (add_node repo node).length = repo.length := by
  have hmem : old ∈ repo := get_node_by_id_mem h
  have hid : old.id = node.id := get_node_by_id_id_eq h
  have hany : repo.any (fun n => n.id == node.id) = true :=
    List.any_eq_true.mpr ⟨old, hmem, by simpa using hid⟩
  constructor
  · unfold add_node get_node_by_id
    rw [if_pos hany]
    exact find?_map_overwrite repo node ⟨old, hmem, hid⟩
  · unfold add_node
    rw [if_pos hany]
    exact List.length_map _ _

/-- A modified security node used to exercise the overwrite case. -/
def security_node_v2 : LearningNode :=
  ⟨"security", "Security", "Security considerations, revised", NodeType.TOPIC,
    ["Guardrails"], ["infrastructure", "observability-evaluation"], 26, []⟩

theorem add_node_existing_spec_witness :
    get_node_by_id default_repo security_node_v2.id = some security_node ∧
    (get_node_by_id (add_node default_repo security_node_v2) security_node_v2.id =
        some security_node_v2 ∧
      (add_node default_repo security_node_v2).length = default_repo.length) :=
  ⟨by decide,
    add_node_existing_spec default_repo security_node_v2 security_node (by decide)⟩

/-! ### C2: characterisation of the recommended topics -/

lemma contains_start_end_false_iff (k : NodeType) :
    [NodeType.START, NodeType.END].contains k = false ↔ k = NodeType.TOPIC := by
  cases k <;> simp [List.contains]

/-- C2: a node is in `get_next_recommended_topics(completed_ids)` exactly when
it is stored, not completed, of kind TOPIC (never START or END) and all its
prerequisites are completed; the result keeps the store's iteration order. -/
theorem get_next_recommended_topics_spec (repo : List LearningNode)
    (completed : List String) :
    (∀ n, n ∈ get_next_recommended_topics repo completed ↔
      n ∈ get_all_nodes repo ∧ ¬n.id ∈ completed ∧ n.node_type = NodeType.TOPIC ∧
        ∀ q ∈ n.prerequisites, q ∈ completed) ∧
    (get_next_recommended_topics repo completed).Sublist (get_all_nodes repo) := by
  constructor
  · intro n
    unfold get_next_recommended_topics
    rw [List.mem_filter]
    simp only [Bool.and_eq_true, Bool.not_eq_true', List.all_eq_true]
    constructor
    · rintro ⟨hmem, ⟨hnc, hk⟩, hall⟩
      refine ⟨hmem, ?_, ?_, ?_⟩
      · intro hc
        rw [← contains_true_iff completed n.id] at hc
        rw [hnc] at hc
        exact Bool.false_ne_true hc
      · exact (contains_start_end_false_iff n.node_type).mp hk
      · intro q hq
        exact (contains_true_iff completed q).mp (hall q hq)
    · rintro ⟨hmem, hnc, hk, hall⟩
      refine ⟨hmem, ⟨?_, ?_⟩, ?_⟩
      · rw [Bool.eq_false_iff]
        intro hc
        exact hnc ((contains_true_iff completed n.id).mp hc)
      · exact (contains_start_end_false_iff n.node_type).mpr hk
      · intro q hq
        exact (contains_true_iff completed q).mpr (hall q hq)
  · exact List.filter_sublist _

/-! ### C10: the two progress queries only depend on the completed id set -/

/-- C10: `get_next_recommended_topics` and `calculate_remaining_hours` depend
only on the set of elements of the completed list: two lists with the same
members (whatever their order and multiplicities) give identical results. -/
theorem completion_set_extensional (repo : List LearningNode)
    (l1 l2 : List String) (h : ∀ x, x ∈ l1 ↔ x ∈ l2) :
    get_next_recommended_topics repo l1 = get_next_recommended_topics repo l2 ∧
    calculate_remaining_hours repo l1 = calculate_remaining_hours repo l2 := by
  have hc : ∀ x, l1.contains x = l2.contains x := by
    intro x
    have h1 : l1.contains x = true ↔ l2.contains x = true := by
      rw [contains_true_iff, contains_true_iff]
      exact h x
    rcases hb1 : l1.contains x with _ | _ <;> rcases hb2 : l2.contains x with _ | _
    · rfl
    · rw [hb1, hb2] at h1
      simp at h1
    · rw [hb1, hb2] at h1
      simp at h1
    · rfl
  constructor
  · unfold get_next_recommended_topics
    simp only [hc]
  · unfold calculate_remaining_hours
    simp only [hc]

theorem completion_set_extensional_witness :
    (∀ x, x ∈ ["start", "llm-apis"] ↔ x ∈ ["llm-apis", "start", "start"]) ∧
    (get_next_recommended_topics default_repo ["start", "llm-apis"] =
        get_next_recommended_topics default_repo ["llm-apis", "start", "start"] ∧
      calculate_remaining_hours default_repo ["start", "llm-apis"] =
        calculate_remaining_hours default_repo ["llm-apis", "start", "start"]) :=
  ⟨fun x => by simp; tauto,
    completion_set_extensional default_repo _ _ (fun x => by simp; tauto)⟩

/-! ### C8: direct prerequisites, resolved in listed order -/

lemma filterMap_get_ids (repo : List LearningNode) (ps : List String) :
    ((ps.filterMap (fun q => get_node_by_id repo q)).map (fun n => n.id)) =
      ps.filter (fun q => (get_node_by_id repo q).isSome) := by
  induction ps with
  | nil => rfl
  | cons q ps ih =>
    cases hq : get_node_by_id repo q with
    | none => simp [List.filterMap_cons, hq, List.filter_cons, ih]
    | some m =>
      have : m.id = q := get_node_by_id_id_eq hq
      simp [List.filterMap_cons, hq, List.filter_cons, ih, this]

/-- C8: for a stored `node_id`, `get_prerequisites` returns exactly the
resolvable ids of that node's prerequisite list, in listed order (the
unresolvable ones silently dropped), each resolved to its stored node; for an
unknown `node_id` it returns the empty sequence. -/
theorem get_prerequisites_spec (repo : List LearningNode) (nid : String) :
    (∀ node, get_node_by_id repo nid = some node →
      ((get_prerequisites repo nid).map (fun n => n.id) =
        node.prerequisites.filter (fun q => (get_node_by_id repo q).isSome) ∧
      ∀ m ∈ get_prerequisites repo nid, get_node_by_id repo m.id = some m)) ∧
    (get_node_by_id repo nid = none → get_prerequisites repo nid = []) := by
  constructor
  · intro node hfind
    constructor
    · simp only [get_prerequisites, hfind]
      exact filterMap_get_ids repo node.prerequisites
    · intro m hm
      simp only [get_prerequisites, hfind] at hm
      rcases List.mem_filterMap.mp hm with ⟨q, _, hq⟩
      rw [get_node_by_id_id_eq hq]
      exact hq
  · intro hfind
    simp [get_prerequisites, hfind]

/-! ### C3: remaining plus completed hours give the overview total -/

/-- The hours of the nodes whose ids are listed as completed, each id resolved
against the store. -/
def completed_hours_sum (repo : List LearningNode) (completed : List String) : Int :=
  ((completed.filterMap (fun c => get_node_by_id repo c)).map
    (fun n => n.estimated_hours)).sum

lemma sum_hours_filter_split (l : List LearningNode) (p : LearningNode → Bool) :
    ((l.filter (fun n => !(p n))).map (fun n => n.estimated_hours)).sum +
      ((l.filter p).map (fun n => n.estimated_hours)).sum =
      (l.map (fun n => n.estimated_hours)).sum := by
  induction l with
  | nil => simp
  | cons a l ih =>
    cases hp : p a <;> simp [List.filter_cons, hp] <;> omega

lemma get_node_by_id_of_mem (repo : List LearningNode)
    (hids : (repo.map (fun n => n.id)).Nodup) (n : LearningNode) (hn : n ∈ repo) :
    get_node_by_id repo n.id = some n := by
  induction repo with
  | nil => simp at hn
  | cons m rest ih =>
    rcases List.mem_cons.mp hn with rfl | hrest
    · unfold get_node_by_id
      rw [List.find?_cons_of_pos _ (by simp)]
    · have hcons : (∀ x ∈ rest, ¬x.id = m.id) ∧ (rest.map (fun n => n.id)).Nodup := by
        simpa using hids
      have hm : m.id ≠ n.id := fun hcontra => hcons.1 n hrest hcontra.symm
      unfold get_node_by_id
      rw [List.find?_cons_of_neg _ (by simp [hm])]
      exact ih hcons.2 hrest

lemma completed_nodes_perm (repo : List LearningNode) (completed : List String)
    (hids : (repo.map (fun n => n.id)).Nodup) (hnd : completed.Nodup) :
    (completed.filterMap (fun c => get_node_by_id repo c)).Perm
      (repo.filter (fun n => completed.contains n.id)) := by
  apply (List.perm_ext_iff_of_nodup ?d1 ?d2).mpr
  case d1 =>
    refine List.Nodup.filterMap ?_ hnd
    intro a a' b hb hb'
    rw [Option.mem_def] at hb hb'
    have e1 := get_node_by_id_id_eq hb
    have e2 := get_node_by_id_id_eq hb'
    rw [← e1]
    exact e2
  case d2 => exact (List.Nodup.of_map _ hids).filter _
  intro x
  constructor
  · intro hx
    rcases List.mem_filterMap.mp hx with ⟨c, hc, hget⟩
    have hxr : x ∈ repo := get_node_by_id_mem hget
    have hxc : x.id = c := get_node_by_id_id_eq hget
    exact List.mem_filter.mpr ⟨hxr, (contains_true_iff _ _).mpr (hxc ▸ hc)⟩
  · intro hx
    rcases List.mem_filter.mp hx with ⟨hxr, hcont⟩
    exact List.mem_filterMap.mpr ⟨x.id, (contains_true_iff _ _).mp hcont,
      get_node_by_id_of_mem repo hids x hxr⟩

/-- C3: for a duplicate-free completed list whose ids all resolve in the
store, remaining hours plus the hours of the completed nodes equal the
overview's total hours. -/
theorem calculate_remaining_hours_spec (repo : List LearningNode)
    (completed : List String)
    (hids : (repo.map (fun n => n.id)).Nodup)
    (hnd : completed.Nodup)
    (hvalid : ∀ c ∈ completed, (get_node_by_id repo c).isSome = true) :
    calculate_remaining_hours repo completed + completed_hours_sum repo completed =
      (get_roadmap_overview repo).estimated_total_hours := by
  unfold calculate_remaining_hours completed_hours_sum get_roadmap_overview get_all_nodes
  rw [hours_foldl_eq_sum, hours_foldl_eq_sum]
  rw [((completed_nodes_perm repo completed hids hnd).map
    (fun n => n.estimated_hours)).sum_eq]
  exact sum_hours_filter_split repo (fun n => completed.contains n.id)

theorem calculate_remaining_hours_spec_witness :
    (default_repo.map (fun n => n.id)).Nodup ∧
    (["start", "llm-apis"] : List String).Nodup ∧
    (∀ c ∈ (["start", "llm-apis"] : List String),
      (get_node_by_id default_repo c).isSome = true) ∧
    calculate_remaining_hours default_repo ["start", "llm-apis"] +
        completed_hours_sum default_repo ["start", "llm-apis"] =
      (get_roadmap_overview default_repo).estimated_total_hours :=
  ⟨by decide, by decide, by decide,
    calculate_remaining_hours_spec default_repo ["start", "llm-apis"]
      (by decide) (by decide) (by decide)⟩

/-! ### C1: the learning path is a topological order of the ancestors

`prereq_edge repo a b` says that `a` is listed as a prerequisite of the stored
node with id `b`; a store is acyclic when no id transitively precedes itself.
`good_from repo seen l` states that, walking `l` from the left, every
prerequisite id of each node that resolves in the store has already appeared,
either in `seen` or as the id of an earlier node of `l`. -/

def pathIds (l : List LearningNode) : List String :=
  l.map (fun n => n.id)

def prereq_edge (repo : List LearningNode) (a b : String) : Prop :=
  ∃ nd, get_node_by_id repo b = some nd ∧ a ∈ nd.prerequisites

def acyclic_prereqs (repo : List LearningNode) : Prop :=
  ∀ a, ¬Relation.TransGen (prereq_edge repo) a a

def good_from (repo : List LearningNode) : List String → List LearningNode → Prop
  | _, [] => True
  | seen, n :: rest =>
      (∀ q ∈ n.prerequisites, (get_node_by_id repo q).isSome = true → q ∈ seen) ∧
      good_from repo (seen ++ [n.id]) rest

/-- Every prerequisite id of a node of `l` that resolves in the store is the
id of a strictly earlier node of `l`. -/
def prereqs_closed (repo : List LearningNode) (l : List LearningNode) : Prop :=
  good_from repo [] l

def unvisited_count (repo : List LearningNode) (v : List String) : Nat :=
  (repo.filter (fun n => !(v.contains n.id))).length

lemma good_from_append (repo : List LearningNode) (seen : List String)
    (l : List LearningNode) (n : LearningNode)
    (hl : good_from repo seen l)
    (hn : ∀ q ∈ n.prerequisites, (get_node_by_id repo q).isSome = true →
      q ∈ seen ++ pathIds l) :
    good_from repo seen (l ++ [n]) := by
  induction l generalizing seen with
  | nil =>
    refine ⟨fun q hq hs => ?_, trivial⟩
    have := hn q hq hs
    simpa [pathIds] using this
  | cons m rest ih =>
    obtain ⟨hm, hrest⟩ := hl
    refine ⟨hm, ih (seen ++ [m.id]) hrest ?_⟩
    intro q hq hs
    have := hn q hq hs
    simpa [pathIds, List.append_assoc] using this

lemma length_filter_mono (l : List LearningNode) (p q : LearningNode → Bool)
    (h : ∀ a, p a = true → q a = true) :
    (l.filter p).length ≤ (l.filter q).length := by
  induction l with
  | nil => simp
  | cons a l ih =>
    rcases hp : p a with _ | _
    · rcases hq : q a with _ | _
      · simp [List.filter_cons, hp, hq]
        omega
      · simp [List.filter_cons, hp, hq]
        omega
    · have hq := h a hp
      simp [List.filter_cons, hp, hq]
      omega

lemma length_filter_strict (l : List LearningNode) (p q : LearningNode → Bool)
    (h : ∀ a, p a = true → q a = true) (a : LearningNode) (ha : a ∈ l)
    (hpa : p a = false) (hqa : q a = true) :
    (l.filter p).length < (l.filter q).length := by
  induction l with
  | nil => simp at ha
  | cons b l ih =>
    rcases List.mem_cons.mp ha with rfl | hb
    · have hmono := length_filter_mono l p q h
      simp [List.filter_cons, hpa, hqa]
      omega
    · have hstep := ih hb
      rcases hp : p b with _ | _
      · rcases hq : q b with _ | _
        · simp [List.filter_cons, hp, hq]
          omega
        · simp [List.filter_cons, hp, hq]
          omega
      · have hq := h b hp
        simp [List.filter_cons, hp, hq]
        omega

lemma unvisited_anti (repo : List LearningNode) (v w : List String) (hvw : v ⊆ w) :
    unvisited_count repo w ≤ unvisited_count repo v := by
  apply length_filter_mono
  intro a ha
  simp only [Bool.not_eq_true'] at ha ⊢
  rcases hb : v.contains a.id with _ | _
  · rfl
  · have : a.id ∈ w := hvw ((contains_true_iff _ _).mp hb)
    rw [← contains_true_iff w a.id] at this
    rw [this] at ha
    exact ha

lemma unvisited_decrease (repo : List LearningNode) (v : List String) (i : String)
    (nd : LearningNode) (hfind : get_node_by_id repo i = some nd) (hiv : i ∉ v) :
    unvisited_count repo (i :: v) < unvisited_count repo v := by
  have hmem : nd ∈ repo := get_node_by_id_mem hfind
  have hid : nd.id = i := get_node_by_id_id_eq hfind
  apply length_filter_strict _ _ _ ?mono nd hmem
  case mono =>
    intro a ha
    simp only [Bool.not_eq_true'] at ha ⊢
    rcases hb : v.contains a.id with _ | _
    · rfl
    · have : a.id ∈ (i :: v) := List.mem_cons_of_mem i ((contains_true_iff _ _).mp hb)
      rw [← contains_true_iff (i :: v) a.id] at this
      rw [this] at ha
      exact ha
  · simp [hid]
  · simp only [Bool.not_eq_true']
    rw [Bool.eq_false_iff]
    intro hc
    exact hiv (hid ▸ (contains_true_iff _ _).mp hc)

lemma pathIds_append (l1 l2 : List LearningNode) :
    pathIds (l1 ++ l2) = pathIds l1 ++ pathIds l2 :=
  List.map_append _ _ _

/-- Invariant relating the state of `build_path` before and after a call:
the visited set only grows, the path only gets extended at the end and stays
inside the visited set, the set of visited-but-not-output ids (the grey call
stack) never grows, freshly output ids were unvisited before the call, the
output ids stay distinct, and the output stays prerequisite-closed. -/
def bp_out (repo : List LearningNode) (v : List String) (p : List LearningNode)
    (st : List String × List LearningNode) : Prop :=
  v ⊆ st.1 ∧
  (∃ t, st.2 = p ++ t) ∧
  pathIds st.2 ⊆ st.1 ∧
  (∀ g ∈ st.1, g ∉ pathIds st.2 → g ∈ v ∧ g ∉ pathIds p) ∧
  (∀ x ∈ pathIds st.2, x ∈ pathIds p ∨ x ∉ v) ∧
  (pathIds st.2).Nodup ∧
  good_from repo [] st.2

lemma bp_out_refl (repo : List LearningNode) (v : List String) (p : List LearningNode)
    (hsub : pathIds p ⊆ v) (hnd : (pathIds p).Nodup) (hgood : good_from repo [] p) :
    bp_out repo v p (v, p) :=
  ⟨fun _ h => h, ⟨[], (List.append_nil p).symm⟩, hsub,
    fun g hg hng => ⟨hg, hng⟩, fun x hx => Or.inl hx, hnd, hgood⟩

lemma bp_out_trans (repo : List LearningNode) {v : List String} {p : List LearningNode}
    {s1 s2 : List String × List LearningNode}
    (h1 : bp_out repo v p s1) (h2 : bp_out repo s1.1 s1.2 s2) :
    bp_out repo v p s2 := by
  obtain ⟨a1, ⟨t1, ht1⟩, c1, d1, e1, _, _⟩ := h1
  obtain ⟨a2, ⟨t2, ht2⟩, c2, d2, e2, f2, g2⟩ := h2
  refine ⟨fun x hx => a2 (a1 hx),
    ⟨t1 ++ t2, by rw [ht2, ht1, List.append_assoc]⟩, c2, ?_, ?_, f2, g2⟩
  · intro g hg hng
    have hd2 := d2 g hg hng
    exact d1 g hd2.1 hd2.2
  · intro x hx
    rcases e2 x hx with hx1 | hx1
    · exact e1 x hx1
    · exact Or.inr fun hxv => hx1 (a1 hxv)

/-- What one completed frame of `build_path` guarantees: the `bp_out`
invariant, that a fresh resolvable id ends up in the output, and that a fresh
resolvable id's node is the last output element. -/
def bp_spec (repo : List LearningNode) (fuel : Nat) : Prop :=
  ∀ i v p,
    pathIds p ⊆ v → (pathIds p).Nodup → good_from repo [] p →
    unvisited_count repo v < fuel →
    (∀ g ∈ v, g ∉ pathIds p → Relation.ReflTransGen (prereq_edge repo) i g) →
    acyclic_prereqs repo →
    bp_out repo v p (build_path repo fuel i (v, p)) ∧
    ((get_node_by_id repo i).isSome = true → i ∉ v →
      i ∈ pathIds (build_path repo fuel i (v, p)).2) ∧
    (∀ nd, get_node_by_id repo i = some nd → i ∉ v →
      (build_path repo fuel i (v, p)).2.getLast? = some nd)

lemma bp_step_out (repo : List LearningNode) (i : String) (v : List String)
    (p : List LearningNode) (node : LearningNode)
    (sF : List String × List LearningNode)
    (hiv : i ∉ v) (hid : node.id = i) (hsub : pathIds p ⊆ v)
    (outF : bp_out repo (i :: v) p sF)
    (progF : ∀ q ∈ node.prerequisites, (get_node_by_id repo q).isSome = true →
      q ∈ pathIds sF.2) :
    bp_out repo v p (sF.1, sF.2 ++ [node]) := by
  obtain ⟨kF, ⟨tF, htF⟩, cF, dF, eF, fF, gF⟩ := outF
  have hips : i ∉ pathIds sF.2 := by
    intro hin
    rcases eF i hin with hip | hniv
    · exact hiv (hsub hip)
    · exact hniv (List.mem_cons_self i v)
  refine ⟨?_, ?_, ?_, ?_, ?_, ?_, ?_⟩
  · exact fun x hx => kF (List.mem_cons_of_mem i hx)
  · exact ⟨tF ++ [node], by rw [htF, List.append_assoc]⟩
  · show pathIds (sF.2 ++ [node]) ⊆ sF.1
    rw [pathIds_append]
    intro x hx
    rcases List.mem_append.mp hx with hx1 | hx1
    · exact cF hx1
    · have hxn : x = node.id := by simpa [pathIds] using hx1
      rw [hxn, hid]
      exact kF (List.mem_cons_self i v)
  · intro g hg hng
    rw [pathIds_append] at hng
    have hng1 : g ∉ pathIds sF.2 := fun hc => hng (List.mem_append_left _ hc)
    have hgne : g ≠ i := by
      intro hgi
      exact hng (List.mem_append_right _ (by simp [pathIds, hid, hgi]))
    have hd := dF g hg hng1
    rcases List.mem_cons.mp hd.1 with hgi | hgv
    · exact absurd hgi hgne
    · exact ⟨hgv, hd.2⟩
  · intro x hx
    rw [pathIds_append] at hx
    rcases List.mem_append.mp hx with hx1 | hx1
    · rcases eF x hx1 with h1 | h1
      · exact Or.inl h1
      · exact Or.inr fun hxv => h1 (List.mem_cons_of_mem i hxv)
    · have hxi : x = i := by simpa [pathIds, hid] using hx1
      exact Or.inr (hxi ▸ hiv)
  · show (pathIds (sF.2 ++ [node])).Nodup
    rw [pathIds_append]
    have hone : pathIds [node] = [i] := by simp [pathIds, hid]
    rw [hone]
    refine List.Nodup.append fF (List.nodup_singleton i) ?_
    intro a ha hb
    rw [List.mem_singleton] at hb
    exact hips (hb ▸ ha)
  · show good_from repo [] (sF.2 ++ [node])
    refine good_from_append repo [] sF.2 node gF ?_
    intro q hq hsome
    have := progF q hq hsome
    simpa using this


lemma bp_out_mem_mono (repo : List LearningNode) {v : List String}
    {p : List LearningNode} {s2 : List String × List LearningNode}
    (h : bp_out repo v p s2) {x : String} (hx : x ∈ pathIds p) :
    x ∈ pathIds s2.2 := by
  obtain ⟨_, ⟨t, ht⟩, _⟩ := h
  rw [ht, pathIds_append]
  exact List.mem_append_left _ hx

lemma bp_fold (repo : List LearningNode) (fuel : Nat) (hspec : bp_spec repo fuel)
    (hacyc : acyclic_prereqs repo) :
    ∀ (ps : List String) (v : List String) (p : List LearningNode),
      pathIds p ⊆ v → (pathIds p).Nodup → good_from repo [] p →
      unvisited_count repo v < fuel →
      (∀ q ∈ ps, ∀ g ∈ v, g ∉ pathIds p →
        Relation.TransGen (prereq_edge repo) q g) →
      bp_out repo v p (ps.foldl (fun s q => build_path repo fuel q s) (v, p)) ∧
      (∀ q ∈ ps, (get_node_by_id repo q).isSome = true →
        q ∈ pathIds (ps.foldl (fun s q => build_path repo fuel q s) (v, p)).2) := by
  intro ps
  induction ps with
  | nil =>
    intro v p hsub hnd hgood _ _
    exact ⟨bp_out_refl repo v p hsub hnd hgood,
      fun q hq => absurd hq (List.not_mem_nil q)⟩
  | cons q0 qs ih =>
    intro v p hsub hnd hgood hfuel hgray
    obtain ⟨out1, prog1, _⟩ := hspec q0 v p hsub hnd hgood hfuel
      (fun g hg hng => (hgray q0 (List.mem_cons_self q0 qs) g hg hng).to_reflTransGen)
      hacyc
    have hsub1 := out1.2.2.1
    have hmono1 := out1.1
    have hd1 := out1.2.2.2.1
    have hfuel1 :
        unvisited_count repo (build_path repo fuel q0 (v, p)).1 < fuel :=
      lt_of_le_of_lt (unvisited_anti repo v _ hmono1) hfuel
    have hgray1 : ∀ q ∈ qs, ∀ g ∈ (build_path repo fuel q0 (v, p)).1,
        g ∉ pathIds (build_path repo fuel q0 (v, p)).2 →
        Relation.TransGen (prereq_edge repo) q g := by
      intro q hq g hg hng
      have hd := hd1 g hg hng
      exact hgray q (List.mem_cons_of_mem q0 hq) g hd.1 hd.2
    obtain ⟨out2, prog2⟩ := ih (build_path repo fuel q0 (v, p)).1
      (build_path repo fuel q0 (v, p)).2 hsub1 out1.2.2.2.2.2.1 out1.2.2.2.2.2.2
      hfuel1 hgray1
    refine ⟨bp_out_trans repo out1 out2, ?_⟩
    intro q hq hsome
    rcases List.mem_cons.mp hq with rfl | hqs
    · by_cases hq0v : q ∈ v
      · by_cases hq0p : q ∈ pathIds p
        · exact bp_out_mem_mono repo out2 (bp_out_mem_mono repo out1 hq0p)
        · exact absurd (hgray q (List.mem_cons_self q qs) q hq0v hq0p) (hacyc q)
      · exact bp_out_mem_mono repo out2 (prog1 hsome hq0v)
    · exact prog2 q hqs hsome

lemma bp_spec_all (repo : List LearningNode) (fuel : Nat) : bp_spec repo fuel := by
  induction fuel with
  | zero =>
    intro i v p _ _ _ hfuel _ _
    exact absurd hfuel (Nat.not_lt_zero _)
  | succ f ih =>
    intro i v p hsub hnd hgood hfuel hgray hacyc
    by_cases hiv : i ∈ v
    · have hstep : build_path repo (f + 1) i (v, p) = (v, p) := by
        unfold build_path
        rw [if_pos hiv]
      rw [hstep]
      exact ⟨bp_out_refl repo v p hsub hnd hgood,
        fun _ h => absurd hiv h, fun nd _ h => absurd hiv h⟩
    · cases hfind : get_node_by_id repo i with
      | none =>
        have hstep : build_path repo (f + 1) i (v, p) = (v, p) := by
          unfold build_path
          rw [if_neg hiv, hfind]
        rw [hstep]
        refine ⟨bp_out_refl repo v p hsub hnd hgood, ?_, ?_⟩
        · intro hsome _
          simp at hsome
        · intro nd hcontra _
          simp at hcontra
      | some node =>
        have hid : node.id = i := get_node_by_id_id_eq hfind
        have hstep : build_path repo (f + 1) i (v, p) =
            ((node.prerequisites.foldl (fun s q => build_path repo f q s)
                (i :: v, p)).1,
             (node.prerequisites.foldl (fun s q => build_path repo f q s)
                (i :: v, p)).2 ++ [node]) := by
          simp only [build_path]
          rw [if_neg hiv, hfind]
        have hsub' : pathIds p ⊆ i :: v :=
          fun x hx => List.mem_cons_of_mem i (hsub hx)
        have hfuel' : unvisited_count repo (i :: v) < f := by
          have hdec := unvisited_decrease repo v i node hfind hiv
          omega
        have hgrayF : ∀ q ∈ node.prerequisites, ∀ g ∈ (i :: v), g ∉ pathIds p →
            Relation.TransGen (prereq_edge repo) q g := by
          intro q hq g hg hng
          rcases List.mem_cons.mp hg with rfl | hgv
          · exact Relation.TransGen.single ⟨node, hfind, hq⟩
          · exact Relation.TransGen.head' ⟨node, hfind, hq⟩ (hgray g hgv hng)
        obtain ⟨outF, progF⟩ := bp_fold repo f ih hacyc node.prerequisites
          (i :: v) p hsub' hnd hgood hfuel' hgrayF
        refine ⟨?_, ?_, ?_⟩
        · rw [hstep]
          exact bp_step_out repo i v p node _ hiv hid hsub outF progF
        · intro _ _
          rw [hstep]
          show i ∈ pathIds (_ ++ [node])
          rw [pathIds_append]
          exact List.mem_append_right _ (by simp [pathIds, hid])
        · intro nd hnd2 _
          injection hnd2 with hnd2
          rw [hstep, ← hnd2]
          exact List.getLast?_concat _

lemma transGen_rank_lt (repo : List LearningNode) (rank : String → Nat)
    (hrank : ∀ nd ∈ repo, ∀ q ∈ nd.prerequisites, rank q < rank nd.id) :
    ∀ a b, Relation.TransGen (prereq_edge repo) a b → rank a < rank b := by
  have hstep : ∀ a b, prereq_edge repo a b → rank a < rank b := by
    rintro a b ⟨nd, hfind, hq⟩
    have hb : nd.id = b := get_node_by_id_id_eq hfind
    have hm : nd ∈ repo := get_node_by_id_mem hfind
    exact hb ▸ hrank nd hm a hq
  intro a b htg
  induction htg with
  | single h => exact hstep _ _ h
  | tail _ h ih => exact lt_trans ih (hstep _ _ h)

lemma acyclic_of_rank (repo : List LearningNode) (rank : String → Nat)
    (hrank : ∀ nd ∈ repo, ∀ q ∈ nd.prerequisites, rank q < rank nd.id) :
    acyclic_prereqs repo := by
  intro a htg
  exact lt_irrefl _ (transGen_rank_lt repo rank hrank a a htg)

/-- A topological height function for the default roadmap, used to exhibit
its acyclicity. -/
def default_rank : String → Nat := fun s =>
  if s = "start" then 0
  else if s = "llm-apis" then 1
  else if s = "model-adaptation" then 2
  else if s = "storage-retrieval" then 2
  else if s = "infrastructure" then 3
  else if s = "ai-agents" then 3
  else if s = "rag-agentic" then 4
  else if s = "observability-evaluation" then 5
  else if s = "security" then 6
  else if s = "forward-looking" then 7
  else 8

/-- C1: over an acyclic store, `get_learning_path(target_id)` for a stored
`target_id` ends with the node whose id is `target_id`, contains no node
twice, and lists every resolvable prerequisite of each of its nodes strictly
before that node. -/
theorem get_learning_path_correct (repo : List LearningNode) (target : String)
    (tnode : LearningNode)
    (hacyc : acyclic_prereqs repo)
    (hfind : get_node_by_id repo target = some tnode) :
    tnode.id = target ∧
    (get_learning_path repo target).getLast? = some tnode ∧
    (get_learning_path repo target).Nodup ∧
    prereqs_closed repo (get_learning_path repo target) := by
  obtain ⟨out, _, hlast⟩ :=
    bp_spec_all repo (repo.length + 1) target [] []
      (by simp [pathIds]) (by simp [pathIds]) trivial
      (by
        have : unvisited_count repo [] ≤ repo.length := List.length_filter_le _ _
        omega)
      (fun g hg => absurd hg (List.not_mem_nil g))
      hacyc
  have hpath : get_learning_path repo target =
      (build_path repo (repo.length + 1) target ([], [])).2 := by
    simp [get_learning_path, hfind]
  refine ⟨get_node_by_id_id_eq hfind, ?_, ?_, ?_⟩
  · rw [hpath]
    exact hlast tnode hfind (List.not_mem_nil target)
  · rw [hpath]
    exact List.Nodup.of_map _ out.2.2.2.2.2.1
  · rw [hpath]
    exact out.2.2.2.2.2.2

theorem get_learning_path_correct_witness :
    acyclic_prereqs default_repo ∧
    get_node_by_id default_repo "ai-engineer" = some end_node ∧
    (end_node.id = "ai-engineer" ∧
      (get_learning_path default_repo "ai-engineer").getLast? = some end_node ∧
      (get_learning_path default_repo "ai-engineer").Nodup ∧
      prereqs_closed default_repo (get_learning_path default_repo "ai-engineer")) :=
  ⟨acyclic_of_rank default_repo default_rank (by decide), by decide,
    get_learning_path_correct default_repo "ai-engineer" end_node
      (acyclic_of_rank default_repo default_rank (by decide)) (by decide)⟩
